import Mathlib

/-!
Verification of the `luno/lu` process supervision and scheduling engine.

This file shallowly embeds the Go code of the repository:
time instants (`time.Time`) are integer nanoseconds since Go's zero time
(January 1, year 1 UTC), durations (`time.Duration`) are integer nanoseconds,
and each Go function of interest is translated into a Lean function over
these types.  Stateful loops are embedded as step functions driven by
explicit traces of per-iteration inputs.  All times are taken in UTC
(`time.Location` values are dropped; every concrete instant in the claims
is a UTC instant).
-/

namespace Lu

/-! ### Time model -/

/-- A Go `time.Time` instant: nanoseconds since January 1, year 1 UTC
(Go's zero time).  Go's `time.Time.IsZero` is `t = 0` here. -/
abbrev GoTime := Int

/-- A Go `time.Duration`: nanoseconds. -/
abbrev GoDuration := Int

def nsPerSecond : Int := 1000000000

def Second : GoDuration := 1000000000

def Minute : GoDuration := 60 * Second

def Hour : GoDuration := 60 * Minute

def Day : GoDuration := 24 * Hour

/-- Seconds from Go's zero time (year 1) to the Unix epoch (1970-01-01),
Go's `unixToInternal` constant. -/
def unixToInternal : Int := 62135596800

/-- Go `t.Unix()`: whole seconds since the Unix epoch.  Go stores a time as
`(sec, nsec)` with `0 ≤ nsec < 10^9`, so the seconds value is the floor of
the nanosecond count divided by `10^9`; Lean's `Int` division is floor
division for a positive divisor. -/
def GoTime.unix (t : GoTime) : Int := t / nsPerSecond - unixToInternal

/-- Go `time.Unix(sec, 0)`. -/
def goUnixTime (sec : Int) : GoTime := (sec + unixToInternal) * nsPerSecond

/-- Go `t.Truncate(d)`: the result of rounding `t` down to a multiple of `d`
since the zero time; for `d ≤ 0` it returns `t` unchanged.  Lean's `%` on
`Int` is Euclidean, so for `d > 0` the remainder is in `[0, d)` and
subtracting it rounds down, exactly as Go does. -/
def goTruncate (t : GoTime) (d : GoDuration) : GoTime :=
  if d ≤ 0 then t else t - t % d

/-- Convenience: a UTC instant from a Unix-seconds value. -/
def utc (unixSec : Int) : GoTime := goUnixTime unixSec

/-! ### Schedules (src/process/schedule.go)

A `cron.Schedule` is a function `Next : time.Time → time.Time`; the package's
`previousAware` interface optionally adds `Previous`.  The dynamic type
assertion `s.(previousAware)` in `nextExecution` is embedded as an
`Option` field. -/

structure Schedule where
  Next : GoTime → GoTime
  PreviousImpl : Option (GoTime → GoTime)

/-- Go `intervalSchedule` from schedule.go (the `Every` policy); the
`Description` string is irrelevant to behaviour and omitted. -/
structure IntervalSchedule where
  Period : GoDuration
  Offset : GoDuration

/-- Go `intervalSchedule.Next`:
`next := t.Truncate(r.Period).Add(r.Offset); if !next.After(t) { next = next.Add(r.Period) }`
(the local variable `next` is inlined). -/
def IntervalSchedule.Next (r : IntervalSchedule) (t : GoTime) : GoTime :=
  if goTruncate t r.Period + r.Offset > t then goTruncate t r.Period + r.Offset
  else goTruncate t r.Period + r.Offset + r.Period

/-- Go `intervalSchedule.Previous`:
`prev := now.Truncate(r.Period).Add(r.Offset); if prev.After(now) { prev = prev.Add(-1 * r.Period) }`
(the local variable `prev` is inlined). -/
def IntervalSchedule.Previous (r : IntervalSchedule) (now : GoTime) : GoTime :=
  if goTruncate now r.Period + r.Offset > now then goTruncate now r.Period + r.Offset - r.Period
  else goTruncate now r.Period + r.Offset

/-- Go `Every(period, WithOffset(offset))`: the interval schedule, which also
implements `previousAware`. -/
def Every (period offset : GoDuration) : Schedule :=
  ⟨IntervalSchedule.Next ⟨period, offset⟩, some (IntervalSchedule.Previous ⟨period, offset⟩)⟩

/-- Go `waitSchedule.Next`: `t.Add(r.Wait)`. -/
def waitScheduleNext (wait : GoDuration) (t : GoTime) : GoTime := t + wait

/-- Go `Poll(wait)`: the wait schedule; it does not implement `previousAware`. -/
def Poll (wait : GoDuration) : Schedule := ⟨waitScheduleNext wait, none⟩

/-- Go `time.Date(t.Year(), t.Month(), t.Day(), 0, 0, 0, 0, time.UTC)`
for a UTC instant `t`: the start of `t`'s UTC day.  Go days in UTC are a
fixed 86400 seconds (Go has no leap seconds) and the zero time is
midnight-aligned, so this is truncation to a multiple of `Day`. -/
def startOfDay (t : GoTime) : GoTime := t - t % Day

/-- Go `timeOfDaySchedule.Next` evaluated in UTC, for in-range `hour`/`minute`:
`time.Date(Year, Month, Day, hour, minute, 0, 0, loc)` is the start of `t`'s
day plus the wall-clock offset, and `Day()+1` adds one 86400-second day
(Go's `time.Date` normalizes the day across month ends). -/
def timeOfDayNext (hour minute : Int) (t : GoTime) : GoTime :=
  if startOfDay t + hour * Hour + minute * Minute > t then
    startOfDay t + hour * Hour + minute * Minute
  else startOfDay t + hour * Hour + minute * Minute + Day

/-- Go `TimeOfDay(hour, minute)`: no `previousAware` implementation. -/
def TimeOfDay (hour minute : Int) : Schedule := ⟨timeOfDayNext hour minute, none⟩

/-- Go `nextExecution(now, last, s, name)` from schedule.go (the metrics gauge
and the `.In(now.Location())` conversion are dropped; all times are UTC).
`last.IsZero()` is `last = 0`; the `previousAware` type assertion is the
`match` on `PreviousImpl`. -/
def nextExecution (now last : GoTime) (s : Schedule) : GoTime :=
  let fromNow := s.Next now
  if last = 0 then fromNow
  else
    match s.PreviousImpl with
    | some prev =>
        let expectedLastRun := prev now
        if ¬ last = expectedLastRun then expectedLastRun
        else
          let fromLast := s.Next last
          if fromLast < fromNow then fromLast else fromNow
    | none =>
        let fromLast := s.Next last
        if fromLast < fromNow then fromLast else fromNow

/-! Concrete instants used by the spec's examples (all UTC, given as Unix
seconds; `2022-01-22T00:00:00Z` is Unix `1642809600`). -/

def t13_24_01 : GoTime := utc 1642857841

def t12_00 : GoTime := utc 1642852800

def t13_00 : GoTime := utc 1642856400

def t14_00 : GoTime := utc 1642860000

end Lu

namespace Lu

/-! ### C1 and C4 -/

/-- C1: whenever `last` is non-zero and the schedule implements `Previous`,
if `Previous(now) ≠ last` then `nextExecution` returns `Previous(now)` as
the due instant; for the interval schedule with period 1h and offset 0,
`Next(13:24:01) = 14:00:00` and
`nextExecution(now = 13:24:01, last = 12:00) = 13:00:00` — the missed run is
executed late rather than skipped. -/
theorem nextExecution_favors_expected_previous
    (now last : GoTime) (s : Schedule) (p : GoTime → GoTime)
    (hp : s.PreviousImpl = some p) (hz : last ≠ 0) (hne : last ≠ p now) :
    nextExecution now last s = p now ∧
    (Every Hour 0).Next t13_24_01 = t14_00 ∧
    nextExecution t13_24_01 t12_00 (Every Hour 0) = t13_00 := by
  refine ⟨?_, by decide, by decide⟩
  unfold nextExecution
  rw [hp]
  simp only [hz, if_false]
  simp [hne]

theorem nextExecution_favors_expected_previous_witness :
    nextExecution t13_24_01 t12_00 (Every Hour 0) = t13_00 :=
  (nextExecution_favors_expected_previous t13_24_01 t12_00 (Every Hour 0)
    (IntervalSchedule.Previous ⟨Hour, 0⟩) rfl (by decide) (by decide)).2.2

/-- C4 counterexample: the claim quantifies over "any parameter values the
constructors accept (including Poll with a zero or negative wait)", but
`Poll(0).Next(t) = t + 0 = t`, which is not strictly after `t`. -/
theorem poll_zero_not_strictly_after :
    ¬ (Poll 0).Next t13_24_01 > t13_24_01 := by decide

/-- C4 amended: `Next(t)` is strictly after `t` for the concrete schedule
policies with parameters in their intended ranges — `Poll` with a positive
wait, `Every` with a positive period and a nonnegative offset, and
`TimeOfDay` with an in-range hour and minute; `Poll` with a zero or
negative wait instead gives `Next(t) = t + wait ≤ t`. -/
theorem schedule_next_strictly_after
    (t : Int) (w : Int) (hw : 0 < w)
    (p o : Int) (hp : 0 < p) (ho : 0 ≤ o)
    (hh mm : Int) (hh0 : 0 ≤ hh) (hh1 : hh ≤ 23) (hm0 : 0 ≤ mm) (hm1 : mm ≤ 59) :
    (Poll w).Next t > t ∧
    (Every p o).Next t > t ∧
    (TimeOfDay hh mm).Next t > t ∧
    (∀ w0 : Int, w0 ≤ 0 → (Poll w0).Next t ≤ t) := by
  refine ⟨?_, ?_, ?_, ?_⟩
  · simpa [Poll, waitScheduleNext] using hw
  · have hps : p ≠ 0 := by omega
    have hmod0 : 0 ≤ t % p := Int.emod_nonneg t hps
    have hmod1 : t % p < p := Int.emod_lt_of_pos t hp
    show IntervalSchedule.Next ⟨p, o⟩ t > t
    unfold IntervalSchedule.Next goTruncate
    simp only [if_neg (show ¬ p ≤ 0 by omega)]
    split
    case isTrue h => exact h
    case isFalse h => linarith
  · have hds : (Day : Int) ≠ 0 := by decide
    have hmod0 : 0 ≤ t % Day := Int.emod_nonneg t hds
    have hmod1 : t % Day < Day := Int.emod_lt_of_pos t (by decide)
    have hhour : 0 ≤ hh * Hour := mul_nonneg hh0 (by decide)
    have hmin : 0 ≤ mm * Minute := mul_nonneg hm0 (by decide)
    have hday : (Day : Int) = 86400000000000 := by decide
    show timeOfDayNext hh mm t > t
    unfold timeOfDayNext startOfDay
    split
    case isTrue h => exact h
    case isFalse h => linarith
  · intro w0 hw0
    simpa [Poll, waitScheduleNext] using hw0

theorem schedule_next_strictly_after_c4_witness :
    (0:Int) < 1 ∧
    ((Poll Second).Next t13_24_01 > t13_24_01 ∧
      (Every Hour 0).Next t13_24_01 > t13_24_01 ∧
      (TimeOfDay 9 0).Next t13_24_01 > t13_24_01 ∧
      (∀ w0 : Int, w0 ≤ 0 → (Poll w0).Next t13_24_01 ≤ t13_24_01)) :=
  ⟨by decide,
    schedule_next_strictly_after t13_24_01 Second (by decide) Hour 0 (by decide)
      (by decide) 9 0 (by decide) (by decide) (by decide) (by decide)⟩

end Lu

namespace Lu

/-! ### C3: MakeErrorSleepFunc (src/process/options.go)

Go's `uint` values (`r`, `errCount`, the `backoff` entries) are `Nat`;
the local `int backoffIdx` is `Int`.  The closure's `err` argument is
unused by the Go body and is dropped here. -/

/-- The first two statements computing `backoffIdx` in `MakeErrorSleepFunc`:
`backoffIdx := int(errCount) - 1; if r > 0 { backoffIdx -= int(r) }`. -/
def backoffIdxPre (r errCount : Nat) : Int :=
  if r > 0 then (errCount : Int) - 1 - (r : Int) else (errCount : Int) - 1

/-- The clamped index:
`if backoffIdx >= len(backoff) { backoffIdx = len(backoff) - 1 }`. -/
def backoffIdx (r errCount len : Nat) : Int :=
  if backoffIdxPre r errCount ≥ (len : Int) then (len : Int) - 1 else backoffIdxPre r errCount

/-- Go `MakeErrorSleepFunc(r, d, backoff)` applied to an error count.
`backoff[backoffIdx]` is `List.getD` with the index converted to `Nat`;
in every reachable branch the index is nonnegative (Go would panic on a
negative index, which cannot happen since the branch requires
`errCount > r`). -/
def MakeErrorSleepFunc (r : Nat) (d : GoDuration) (backoff : List Nat)
    (errCount : Nat) : GoDuration :=
  if errCount ≤ r then 0
  else if backoff.length = 0 then d
  else d * ((backoff.getD (backoffIdx r errCount backoff.length).toNat 0 : Nat) : Int)

/-- C3 counterexample: the claim's second concrete sequence says that with
`r = 3`, `d = 1s` and multiplier table `[1,2,3]` the sleep at error count 3
is already `1s` (sequence `0,0,1s,2s,3s,3s,...`), but the code returns 0 for
every error count up to `r = 3`. -/
theorem makeErrorSleepFunc_r3_table_count3 :
    MakeErrorSleepFunc 3 Second [1, 2, 3] 3 = 0 ∧ (0 : GoDuration) ≠ Second := by
  decide

/-- C3 amended: `MakeErrorSleepFunc(r, d, m)` returns 0 for error counts
`1..r`; beyond `r` it returns `d` when `m` is empty, and otherwise
`d * m[min(errCount-1-r, len(m)-1)]`, saturating at the table's last
multiplier.  Concretely, `MakeErrorSleepFunc(r=3, d=1s, nil)` yields
`0,0,0,1s,1s,...`; with multiplier table `[1,2,3]` and `r=3` it yields
`0,0,0,1s,2s,3s,3s,...` (the claimed two-zero sequence `0,0,1s,2s,3s,3s,...`
is the one produced with `r=2`). -/
theorem makeErrorSleepFunc_spec
    (r : Nat) (d : Int) (m : List Nat) (c : Nat) (hc : 1 ≤ c) :
    (c ≤ r → MakeErrorSleepFunc r d m c = 0) ∧
    (c > r → m = [] → MakeErrorSleepFunc r d m c = d) ∧
    (c > r → m ≠ [] →
      MakeErrorSleepFunc r d m c = d * (m.getD (min (c - 1 - r) (m.length - 1)) 0 : Int)) ∧
    ((MakeErrorSleepFunc 3 Second [] 1 = 0 ∧ MakeErrorSleepFunc 3 Second [] 2 = 0 ∧
      MakeErrorSleepFunc 3 Second [] 3 = 0 ∧ MakeErrorSleepFunc 3 Second [] 4 = Second ∧
      MakeErrorSleepFunc 3 Second [] 5 = Second) ∧
     (MakeErrorSleepFunc 3 Second [1, 2, 3] 1 = 0 ∧ MakeErrorSleepFunc 3 Second [1, 2, 3] 2 = 0 ∧
      MakeErrorSleepFunc 3 Second [1, 2, 3] 3 = 0 ∧
      MakeErrorSleepFunc 3 Second [1, 2, 3] 4 = Second ∧
      MakeErrorSleepFunc 3 Second [1, 2, 3] 5 = 2 * Second ∧
      MakeErrorSleepFunc 3 Second [1, 2, 3] 6 = 3 * Second ∧
      MakeErrorSleepFunc 3 Second [1, 2, 3] 7 = 3 * Second) ∧
     (MakeErrorSleepFunc 2 Second [1, 2, 3] 1 = 0 ∧ MakeErrorSleepFunc 2 Second [1, 2, 3] 2 = 0 ∧
      MakeErrorSleepFunc 2 Second [1, 2, 3] 3 = Second ∧
      MakeErrorSleepFunc 2 Second [1, 2, 3] 4 = 2 * Second ∧
      MakeErrorSleepFunc 2 Second [1, 2, 3] 5 = 3 * Second ∧
      MakeErrorSleepFunc 2 Second [1, 2, 3] 6 = 3 * Second)) := by
  refine ⟨?_, ?_, ?_, by decide⟩
  · intro h
    simp [MakeErrorSleepFunc, h]
  · intro h1 h2
    subst h2
    simp [MakeErrorSleepFunc, show ¬ c ≤ r by omega]
  · intro h1 h2
    have hlen : m.length ≠ 0 := by simpa using h2
    have hpre : backoffIdxPre r c = (c : Int) - 1 - (r : Int) := by
      unfold backoffIdxPre
      split <;> omega
    have hidx : (backoffIdx r c m.length).toNat = min (c - 1 - r) (m.length - 1) := by
      unfold backoffIdx
      rw [hpre]
      split <;> omega
    simp [MakeErrorSleepFunc, show ¬ c ≤ r by omega, hlen, hidx]

theorem makeErrorSleepFunc_spec_witness :
    (1 ≤ 4 ∧ 4 > 3 ∧ ([1, 2, 3] : List Nat) ≠ []) ∧
    MakeErrorSleepFunc 3 Second [1, 2, 3] 4 =
      Second * (([1, 2, 3] : List Nat).getD (min (4 - 1 - 3) ([1, 2, 3].length - 1)) 0 : Int) :=
  ⟨⟨by decide, by decide, by decide⟩,
    (makeErrorSleepFunc_spec 3 Second [1, 2, 3] 4 (by decide)).2.2.1 (by decide) (by decide)⟩

end Lu

namespace Lu

/-! ### Supervised loops (src/process/loop.go)

Errors are embedded as a small inductive: `canceled` is `context.Canceled`,
`breakLoop` is `ErrBreakContextLoop`, `strconvErr` stands for a
`strconv.ParseInt` failure, and `other n` is any other error value.
`errors.Is(err, target)` on these sentinel values is equality.
A loop iteration's interaction with the outside world — the result of
`getCtx`, of the unit-of-work `f`, and of the cancellable `lu.Wait` sleep —
is a `LoopEnv`; a run of the loop is driven by a finite trace of these. -/

inductive GoErr
  | canceled
  | breakLoop
  | strconvErr
  | other (n : Nat)
deriving DecidableEq

/-- The option fields of `options` (src/process/options.go) that the loop
bodies consult.  `sleep` is the value of `opts.sleep()` and `errorSleep`
the configured `ErrorSleepFunc`. -/
structure LoopOpts where
  isBreakableLoop : Bool
  maxErrors : Nat
  sleep : GoDuration
  errorSleep : Nat → GoErr → GoDuration

/-- External inputs of one loop iteration: `getCtxErr` is the error result
of the `ContextFunc` (`none` = a run context was obtained), `fErr` the
result of the unit of work, and `waitErr` the result of the `lu.Wait`
sleep (`none` = the wait completed; `some canceled` = the run context was
cancelled during the sleep). -/
structure LoopEnv where
  getCtxErr : Option GoErr
  fErr : Option GoErr
  waitErr : Option GoErr

/-- Result of one trip around the `for` loop in `wrapContextLoop`:
either the loop continues with a new consecutive-error count (recording the
sleep that was requested), or the wrapped `ProcessFunc` returns. -/
inductive StepResult
  | cont (errCount : Nat) (slept : GoDuration)
  | exit (result : Option GoErr)
deriving DecidableEq

/-- The outer handling in `wrapContextLoop` of the error returned by
`runWithContext`:
`if errors.Is(err, ErrBreakContextLoop) { return nil }`;
`if err != nil && !errors.Is(err, context.Canceled) { return err }`;
otherwise the loop continues (the next iteration re-checks `ctx.Err()`). -/
def outerHandle (errCount : Nat) (slept : GoDuration) (err : GoErr) : StepResult :=
  if err = .breakLoop then .exit none
  else if err = .canceled then .cont errCount slept
  else .exit (some err)

/-- One iteration of the loop body of `wrapContextLoop(getCtx, f, opts)`.
`runWithContext` returns `getCtx`'s error directly when obtaining the run
context fails, without invoking the closure; otherwise the closure runs
`f`, handles breakable-loop and error cases, sleeps, and its return value
goes through the same outer handling. -/
def loopStep (o : LoopOpts) (errCount : Nat) (env : LoopEnv) : StepResult :=
  match env.getCtxErr with
  | some e => outerHandle errCount 0 e
  | none =>
    match env.fErr with
    | some e =>
      if o.isBreakableLoop ∧ e = .breakLoop then
        -- the closure returns ErrBreakContextLoop; the outer check maps it to nil
        .exit none
      else if e ≠ .canceled then
        -- errCount += 1; sleep = opts.errorSleep(errCount, err); log; maybe give up
        if o.maxErrors > 0 ∧ errCount + 1 ≥ o.maxErrors then
          outerHandle (errCount + 1) 0 e
        else
          match env.waitErr with
          | some w => outerHandle (errCount + 1) (o.errorSleep (errCount + 1) e) w
          | none => .cont (errCount + 1) (o.errorSleep (errCount + 1) e)
      else
        -- a cancellation result resets the counter like a success
        match env.waitErr with
        | some w => outerHandle 0 o.sleep w
        | none => .cont 0 o.sleep
    | none =>
      match env.waitErr with
      | some w => outerHandle 0 o.sleep w
      | none => .cont 0 o.sleep

/-- State of the loop after consuming a finite trace. -/
inductive LoopState
  | running (errCount : Nat)
  | done (result : Option GoErr)
deriving DecidableEq

/-- Run `wrapContextLoop`'s loop over a finite trace of iteration inputs
(while the outer context stays live). -/
def runLoop (o : LoopOpts) : List LoopEnv → Nat → LoopState
  | [], ec => .running ec
  | env :: rest, ec =>
    match loopStep o ec env with
    | .cont ec2 _ => runLoop o rest ec2
    | .exit r => .done r

/-- One attempt of `ContextRetry`'s loop: a `getCtx` failure leaves the
attempt with a non-nil error (so the outer `if err == nil { break }` does
not fire and the loop just tries again); a nil result from `f` makes the
closure return nil and the loop break; otherwise the error count rises,
the error-sleep policy is consulted and the attempt ends with a non-nil
error regardless of whether the sleep completed or was cancelled. -/
inductive RetryStep
  | cont (errCount : Nat) (slept : GoDuration)
  | success
deriving DecidableEq

def retryStep (o : LoopOpts) (errCount : Nat) (env : LoopEnv) : RetryStep :=
  match env.getCtxErr with
  | some _ => .cont errCount 0
  | none =>
    match env.fErr with
    | none => .success
    | some e => .cont (errCount + 1) (o.errorSleep (errCount + 1) e)

/-- Run `ContextRetry`'s loop over a finite trace (outer context live):
on break, `p.Run` returns `ctx.Err() = nil`. -/
def runRetry (o : LoopOpts) : List LoopEnv → Nat → LoopState
  | [], ec => .running ec
  | env :: rest, ec =>
    match retryStep o ec env with
    | .cont ec2 _ => runRetry o rest ec2
    | .success => .done none

/-- Go `defaultLoopOptions` resolved with no user options: not breakable,
`maxErrors = 0`, zero success-sleep, constant 10s error sleep. -/
def defaultLoopOpts : LoopOpts :=
  ⟨false, 0, 0, fun _ _ => 10 * Second⟩

end Lu

namespace Lu

/-- C2 counterexample: with the default options (`maxErrors = 0`, so no
max-error threshold) and no cancellation, a single iteration whose `getCtx`
fails with an ordinary error makes `wrapContextLoop` return that error:
the loop ends without the error counter being incremented and without any
backoff sleep, contradicting the claim that a `getCtx` error is handled
like a unit-of-work failure and does not end the loop. -/
theorem getCtx_error_ends_loop_counterexample :
    runLoop defaultLoopOpts [⟨some (.other 0), none, none⟩] 0 = .done (some (.other 0)) ∧
    loopStep defaultLoopOpts 0 ⟨some (.other 0), none, none⟩ ≠
      .cont 1 (defaultLoopOpts.errorSleep 1 (.other 0)) := by
  constructor
  · rfl
  · decide

/-- C2 amended: in `wrapContextLoop` an error from `getCtx` is *not*
handled like a unit-of-work failure: unless it is the break signal or a
cancellation it immediately terminates the loop with that error, with the
consecutive-error counter untouched and no error-sleep; a `getCtx`
cancellation just continues the loop.  When the run context is obtained,
the only way an iteration terminates the loop with an error (absent outer
cancellation, i.e. any wait interruption is a cancellation) is a nonzero
max-error threshold being reached. -/
theorem getCtx_error_is_fatal
    (o : LoopOpts) (ec : Nat) (env : LoopEnv) (e : GoErr)
    (he1 : e ≠ .canceled) (he2 : e ≠ .breakLoop) :
    (env.getCtxErr = some e → loopStep o ec env = .exit (some e)) ∧
    (env.getCtxErr = some .canceled → loopStep o ec env = .cont ec 0) ∧
    (env.getCtxErr = none →
      (env.waitErr = none ∨ env.waitErr = some .canceled) →
      ∀ e2 : GoErr, loopStep o ec env = .exit (some e2) →
        o.maxErrors > 0 ∧ ec + 1 ≥ o.maxErrors) := by
  refine ⟨?_, ?_, ?_⟩
  · intro hg
    simp [loopStep, hg, outerHandle, he1, he2]
  · intro hg
    simp [loopStep, hg, outerHandle]
  · intro hg hw e2 hstep
    by_contra hmax
    simp only [loopStep, hg] at hstep
    cases hf : env.fErr with
    | none =>
      simp only [hf] at hstep
      rcases hw with hw | hw <;> simp [hw, outerHandle] at hstep
    | some e3 =>
      simp only [hf] at hstep
      by_cases hb : o.isBreakableLoop ∧ e3 = .breakLoop
      · simp [hb] at hstep
      · rw [if_neg (by simpa using hb)] at hstep
        by_cases hc : e3 = .canceled
        · simp only [hc] at hstep
          simp only [if_neg (by simp : ¬ (GoErr.canceled ≠ GoErr.canceled))] at hstep
          rcases hw with hw | hw <;> simp [hw, outerHandle] at hstep
        · rw [if_pos (by simpa using hc), if_neg hmax] at hstep
          rcases hw with hw | hw <;> simp [hw, outerHandle] at hstep

theorem getCtx_error_is_fatal_witness :
    ((GoErr.other 7) ≠ .canceled ∧ (GoErr.other 7) ≠ .breakLoop) ∧
    ((some (GoErr.other 7) = some (GoErr.other 7)) →
      loopStep defaultLoopOpts 2 ⟨some (.other 7), none, none⟩ = .exit (some (.other 7))) :=
  ⟨⟨by decide, by decide⟩,
    (getCtx_error_is_fatal defaultLoopOpts 2 ⟨some (.other 7), none, none⟩ (.other 7)
      (by decide) (by decide)).1⟩

/-- C10: `ContextRetry`'s loop never gives up because of repeated errors:
its result over any trace is independent of the configured max-error
threshold (the option is never consulted); it finishes exactly when an
attempt first obtains a run context and `f` returns nil, and then the
result is nil; a `getCtx` error merely causes another attempt (the loop
continues with the error count unchanged); and a trace of failing attempts
never terminates the loop. -/
theorem contextRetry_never_gives_up
    (o : LoopOpts) (trace : List LoopEnv) (ec : Nat) (m : Nat) (env : LoopEnv) (e : GoErr) :
    (runRetry { o with maxErrors := m } trace ec = runRetry o trace ec) ∧
    (∀ r, runRetry o trace ec = .done r → r = none) ∧
    (env.getCtxErr = some e → retryStep o ec env = .cont ec 0) ∧
    (env.getCtxErr = none → env.fErr = none → retryStep o ec env = .success) ∧
    ((∀ env2 ∈ trace, env2.getCtxErr ≠ none ∨ env2.fErr ≠ none) →
      ∀ r, runRetry o trace ec ≠ .done r) := by
  refine ⟨?_, ?_, ?_, ?_, ?_⟩
  · induction trace generalizing ec with
    | nil => rfl
    | cons env2 rest ih =>
      rw [runRetry, runRetry]
      have hstep : retryStep { o with maxErrors := m } ec env2 = retryStep o ec env2 := rfl
      rw [hstep]
      cases retryStep o ec env2 with
      | cont ec2 s => exact ih ec2
      | success => rfl
  · induction trace generalizing ec with
    | nil => intro r h; cases h
    | cons env2 rest ih =>
      intro r h
      rw [runRetry] at h
      cases hs : retryStep o ec env2 with
      | cont ec2 s =>
        rw [hs] at h
        exact ih ec2 r h
      | success =>
        rw [hs] at h
        cases h
        rfl
  · intro hg
    simp [retryStep, hg]
  · intro hg hf
    simp [retryStep, hg, hf]
  · induction trace generalizing ec with
    | nil =>
      intro _ r h
      cases h
    | cons env2 rest ih =>
      intro hall r h
      rw [runRetry] at h
      cases hs : retryStep o ec env2 with
      | cont ec2 s =>
        rw [hs] at h
        exact ih ec2 (fun x hx => hall x (List.mem_cons_of_mem _ hx)) r h
      | success =>
        rcases hall env2 (List.mem_cons_self env2 rest) with hbad | hbad
        · cases hg : env2.getCtxErr with
          | none => exact hbad hg
          | some e2 => rw [retryStep, hg] at hs; cases hs
        · cases hg : env2.getCtxErr with
          | some e2 => rw [retryStep, hg] at hs; cases hs
          | none =>
            cases hf : env2.fErr with
            | none => exact hbad hf
            | some e3 => rw [retryStep, hg, hf] at hs; cases hs

theorem contextRetry_never_gives_up_witness :
    ((some (GoErr.other 3) : Option GoErr) = some (.other 3) →
      retryStep defaultLoopOpts 0 ⟨some (.other 3), none, none⟩ = .cont 0 0) ∧
    runRetry { defaultLoopOpts with maxErrors := 5 }
        [⟨some (.other 3), none, none⟩, ⟨none, none, none⟩] 0 =
      runRetry defaultLoopOpts [⟨some (.other 3), none, none⟩, ⟨none, none, none⟩] 0 :=
  ⟨(contextRetry_never_gives_up defaultLoopOpts
      [⟨some (.other 3), none, none⟩, ⟨none, none, none⟩] 0 5
      ⟨some (.other 3), none, none⟩ (.other 3)).2.2.1,
    (contextRetry_never_gives_up defaultLoopOpts
      [⟨some (.other 3), none, none⟩, ⟨none, none, none⟩] 0 5
      ⟨some (.other 3), none, none⟩ (.other 3)).1⟩

end Lu

namespace Lu

/-! ### Cursor values (src/process/schedule.go: getLastRun / setRunDone)

The cursor stores strings.  `setRunDone` writes
`strconv.FormatInt(t.Unix(), 10)` and `getLastRun` reads the string back
with `strconv.ParseInt(val, 10, 64)`.  Both stdlib functions are modelled
character-for-character: `FormatInt` produces the decimal ASCII
representation with a leading `-` for negatives, and `ParseInt` accepts an
optional sign followed by decimal digits, rejecting anything else and any
value outside the signed 64-bit range. -/

def digitChar (d : Nat) : Char := Char.ofNat (48 + d)

/-- The decimal digit characters of `n`, most significant first
(empty for `n = 0`; callers special-case zero as `FormatInt` does). -/
def formatNatChars (n : Nat) : List Char := ((Nat.digits 10 n).map digitChar).reverse

/-- Modelled from `strconv.FormatInt(n, 10)`. -/
def goFormatInt (n : Int) : String :=
  if n = 0 then "0"
  else if n < 0 then ⟨'-' :: formatNatChars n.natAbs⟩
  else ⟨formatNatChars n.natAbs⟩

def digitVal (c : Char) : Option Nat :=
  if 48 ≤ c.toNat ∧ c.toNat ≤ 57 then some (c.toNat - 48) else none

def parseDigitsAux : List Char → Nat → Option Nat
  | [], acc => some acc
  | c :: cs, acc =>
    match digitVal c with
    | some d => parseDigitsAux cs (acc * 10 + d)
    | none => none

/-- Parse a nonempty all-digit string as a natural number. -/
def parseDigits : List Char → Option Nat
  | [] => none
  | c :: cs => parseDigitsAux (c :: cs) 0

def int64Max : Int := 9223372036854775807

def int64MinAbs : Int := 9223372036854775808

/-- Modelled from `strconv.ParseInt(s, 10, 64)`: optional `+`/`-` sign,
then decimal digits; empty input, stray characters or a value outside the
signed 64-bit range are errors (`none`). -/
def goParseIntChars : List Char → Option Int
  | [] => none
  | c :: cs =>
    if c = '+' then
      match parseDigits cs with
      | some n => if (n : Int) ≤ int64Max then some (n : Int) else none
      | none => none
    else if c = '-' then
      match parseDigits cs with
      | some n => if (n : Int) ≤ int64MinAbs then some (-(n : Int)) else none
      | none => none
    else
      match parseDigits (c :: cs) with
      | some n => if (n : Int) ≤ int64Max then some (n : Int) else none
      | none => none

def goParseInt10 (s : String) : Option Int := goParseIntChars s.data

theorem parseDigitsAux_append (xs ys : List Char) (acc : Nat) :
    parseDigitsAux (xs ++ ys) acc =
      match parseDigitsAux xs acc with
      | some a => parseDigitsAux ys a
      | none => none := by
  induction xs generalizing acc with
  | nil => rfl
  | cons c cs ih =>
    rw [List.cons_append, parseDigitsAux, parseDigitsAux]
    cases digitVal c with
    | none => rfl
    | some d => exact ih (acc * 10 + d)

theorem digitVal_digitChar (d : Nat) (hd : d < 10) : digitVal (digitChar d) = some d := by
  interval_cases d <;> decide

theorem digitChar_not_sign (d : Nat) (hd : d < 10) :
    digitChar d ≠ '+' ∧ digitChar d ≠ '-' := by
  interval_cases d <;> exact ⟨by decide, by decide⟩

theorem parseDigitsAux_rev_digits (L : List Nat) (hL : ∀ d ∈ L, d < 10) (acc : Nat) :
    parseDigitsAux ((L.map digitChar).reverse) acc =
      some (acc * 10 ^ L.length + Nat.ofDigits 10 L) := by
  induction L generalizing acc with
  | nil => simp [parseDigitsAux, Nat.ofDigits]
  | cons d L ih =>
    have hd : d < 10 := hL d (List.mem_cons_self d L)
    have hL2 : ∀ x ∈ L, x < 10 := fun x hx => hL x (List.mem_cons_of_mem _ hx)
    rw [List.map_cons, List.reverse_cons, parseDigitsAux_append, ih hL2 acc]
    simp only [parseDigitsAux, digitVal_digitChar d hd]
    rw [Nat.ofDigits_cons]
    congr 1
    simp [List.length_cons]
    ring

theorem parseDigits_formatNatChars (n : Nat) (hn : n ≠ 0) :
    parseDigits (formatNatChars n) = some n := by
  have hlt : ∀ d ∈ Nat.digits 10 n, d < 10 := fun d hd => Nat.digits_lt_base (by omega) hd
  have hmain := parseDigitsAux_rev_digits (Nat.digits 10 n) hlt 0
  rw [Nat.ofDigits_digits, Nat.zero_mul, Nat.zero_add] at hmain
  have hne : formatNatChars n ≠ [] := by
    unfold formatNatChars
    simp [Nat.digits_ne_nil_iff_ne_zero.mpr hn]
  cases h : formatNatChars n with
  | nil => exact absurd h hne
  | cons c cs =>
    rw [parseDigits, ← h]
    exact hmain

theorem mem_formatNatChars_digit (n : Nat) (c : Char) (hc : c ∈ formatNatChars n) :
    ∃ d, d < 10 ∧ c = digitChar d := by
  unfold formatNatChars at hc
  rw [List.mem_reverse, List.mem_map] at hc
  obtain ⟨d, hd, hcd⟩ := hc
  exact ⟨d, Nat.digits_lt_base (by omega) hd, hcd.symm⟩

/-- Round trip of the modelled stdlib pair: parsing the formatted decimal
representation of an in-range `int64` value returns the value. -/
theorem goParseInt10_goFormatInt (n : Int)
    (h1 : -int64MinAbs ≤ n) (h2 : n ≤ int64Max) :
    goParseInt10 (goFormatInt n) = some n := by
  simp only [int64MinAbs, int64Max] at h1 h2
  rcases lt_trichotomy n 0 with hneg | hzero | hpos
  · have hn0 : n ≠ 0 := by omega
    have habs : n.natAbs ≠ 0 := by simpa [Int.natAbs_eq_zero] using hn0
    rw [goFormatInt, if_neg hn0, if_pos hneg]
    show goParseIntChars ('-' :: formatNatChars n.natAbs) = some n
    rw [goParseIntChars]
    rw [if_neg (by decide : ¬ ('-' : Char) = '+'), if_pos (rfl : ('-' : Char) = '-')]
    rw [parseDigits_formatNatChars n.natAbs habs]
    show (if (n.natAbs : Int) ≤ int64MinAbs then some (-(n.natAbs : Int)) else none) = some n
    rw [if_pos (show (n.natAbs : Int) ≤ int64MinAbs by simp only [int64MinAbs]; omega)]
    congr 1
    omega
  · subst hzero
    decide
  · have hn0 : n ≠ 0 := by omega
    have habs : n.natAbs ≠ 0 := by simpa [Int.natAbs_eq_zero] using hn0
    rw [goFormatInt, if_neg hn0, if_neg (by omega : ¬ n < 0)]
    show goParseIntChars (formatNatChars n.natAbs) = some n
    cases h : formatNatChars n.natAbs with
    | nil =>
      have := parseDigits_formatNatChars n.natAbs habs
      rw [h] at this
      cases this
    | cons c cs =>
      obtain ⟨d, hd, hcd⟩ :=
        mem_formatNatChars_digit n.natAbs c (h ▸ List.mem_cons_self c cs)
      obtain ⟨hp, hm⟩ := digitChar_not_sign d hd
      rw [goParseIntChars]
      rw [if_neg (hcd ▸ hp), if_neg (hcd ▸ hm), ← h, parseDigits_formatNatChars n.natAbs habs]
      show (if (n.natAbs : Int) ≤ int64Max then some ((n.natAbs : Int)) else none) = some n
      rw [if_pos (show (n.natAbs : Int) ≤ int64Max by simp only [int64Max]; omega)]
      congr 1
      omega

end Lu

namespace Lu

theorem string_mk_ne_empty (l : List Char) (hl : l ≠ []) : (⟨l⟩ : String) ≠ "" := fun h =>
  hl (congrArg String.data h)

theorem formatNatChars_ne_nil (n : Nat) (hn : n ≠ 0) : formatNatChars n ≠ [] := by
  unfold formatNatChars
  simp [Nat.digits_ne_nil_iff_ne_zero.mpr hn]

theorem goFormatInt_ne_empty (n : Int) : goFormatInt n ≠ "" := by
  rw [goFormatInt]
  by_cases h0 : n = 0
  · rw [if_pos h0]
    decide
  · rw [if_neg h0]
    have habs : n.natAbs ≠ 0 := by simpa [Int.natAbs_eq_zero] using h0
    by_cases hneg : n < 0
    · rw [if_pos hneg]
      exact string_mk_ne_empty _ (by simp)
    · rw [if_neg hneg]
      exact string_mk_ne_empty _ (formatNatChars_ne_nil _ habs)

/-- Go `getLastRun` (schedule.go) applied to a cursor `Get` result: a `Get`
error propagates; empty string means "never run" and yields the zero time;
otherwise the decimal value is parsed (a parse failure is an error) and
`time.Unix(unixSec, 0)` is returned. -/
def getLastRun (getRes : Except GoErr String) : Except GoErr GoTime :=
  match getRes with
  | .error e => .error e
  | .ok val =>
    if val = "" then .ok 0
    else
      match goParseInt10 val with
      | none => .error .strconvErr
      | some unixSec => .ok (goUnixTime unixSec)

/-- The value `setRunDone` (schedule.go) writes to the cursor:
`strconv.FormatInt(t.Unix(), 10)`. -/
def setRunDoneValue (t : GoTime) : String := goFormatInt t.unix

/-- C9: a cursor round trip truncates to whole seconds: for a store that
returns exactly what `setRunDone(t)` stored, `getLastRun` yields
`time.Unix(t.Unix(), 0)`, which is `t` with its sub-second component
dropped and equals `t` exactly when that component is zero; and
`getLastRun` of the empty string is the zero time (never run).  The cursor
name only selects the store key and does not affect the value.  The
hypotheses say `t.Unix()` is in `int64` range, which always holds for a Go
`time.Time` (its seconds field is an `int64`). -/
theorem cursor_roundtrip_truncates (t : Int)
    (h1 : -int64MinAbs ≤ GoTime.unix t) (h2 : GoTime.unix t ≤ int64Max) :
    getLastRun (.ok (setRunDoneValue t)) = .ok (goUnixTime (GoTime.unix t)) ∧
    goUnixTime (GoTime.unix t) = t - t % nsPerSecond ∧
    ((goUnixTime (GoTime.unix t) = t) ↔ t % nsPerSecond = 0) ∧
    getLastRun (.ok "") = .ok 0 := by
  have key : goUnixTime (GoTime.unix t) = t - t % nsPerSecond := by
    show (t / 1000000000 - 62135596800 + 62135596800) * 1000000000 = t - t % 1000000000
    omega
  refine ⟨?_, key, ?_, rfl⟩
  · rw [getLastRun, setRunDoneValue]
    rw [if_neg (goFormatInt_ne_empty (GoTime.unix t))]
    rw [goParseInt10_goFormatInt (GoTime.unix t) h1 h2]
  · rw [key]
    show t - t % 1000000000 = t ↔ t % 1000000000 = 0
    omega

theorem cursor_roundtrip_truncates_witness :
    (-int64MinAbs ≤ GoTime.unix t13_24_01 ∧ GoTime.unix t13_24_01 ≤ int64Max) ∧
    (getLastRun (.ok (setRunDoneValue t13_24_01)) = .ok (goUnixTime (GoTime.unix t13_24_01)) ∧
      goUnixTime (GoTime.unix t13_24_01) = t13_24_01 - t13_24_01 % nsPerSecond ∧
      ((goUnixTime (GoTime.unix t13_24_01) = t13_24_01) ↔ t13_24_01 % nsPerSecond = 0) ∧
      getLastRun (.ok "") = .ok 0) :=
  ⟨⟨by decide, by decide⟩,
    cursor_roundtrip_truncates t13_24_01 (by decide) (by decide)⟩

end Lu

namespace Lu

/-! ### scheduleRunner.doNext and processOnce (src/process/schedule.go) -/

/-- The option fields consulted by the schedule runner. -/
structure ScheduleOpts where
  maxErrors : Nat
  sleep : GoDuration
  errorSleep : Nat → GoErr → GoDuration

/-- External inputs of one `doNext` iteration: the result of the cursor
`Get`, the clock's current instant, the outcome of the cancellable
`lu.WaitUntil` (`none` = the due instant was reached), the scheduled
function's result, and the cursor `Set` result. -/
structure DoNextEnv where
  getResult : Except GoErr String
  now : GoTime
  waitErr : Option GoErr
  fErr : Option GoErr
  setErr : Option GoErr

/-- Observable outcome of one `doNext` call: its return value, the value
passed to the cursor `Set` if `setRunDone` was invoked (`none` = the cursor
was left unchanged), and whether the scheduled function was invoked and
whether `doNext` waited for the due instant. -/
structure DoNextOutcome where
  result : Option GoErr
  cursorSet : Option String
  invokedF : Bool
  waitedUntilDue : Bool
deriving DecidableEq

/-- Go `scheduleRunner.doNext`: read the cursor (`getLastRun`), compute the
due instant (`nextExecution`), and then either (a) give up and persist the
due instant when a nonzero max-error threshold has been reached, or
(b) wait until the due instant, run the scheduled function, and persist the
due instant via `setRunDone` only when the function returns nil.  The
`runID` string and logging context do not affect the outcome and are
dropped. -/
def doNext (o : ScheduleOpts) (when : Schedule) (errCount : Nat) (env : DoNextEnv) :
    DoNextOutcome :=
  match getLastRun env.getResult with
  | .error e => ⟨some e, none, false, false⟩
  | .ok lastDone =>
    if o.maxErrors > 0 ∧ errCount ≥ o.maxErrors then
      ⟨env.setErr, some (setRunDoneValue (nextExecution env.now lastDone when)), false, false⟩
    else
      match env.waitErr with
      | some e => ⟨some e, none, false, true⟩
      | none =>
        match env.fErr with
        | some e => ⟨some e, none, true, true⟩
        | none =>
          ⟨env.setErr, some (setRunDoneValue (nextExecution env.now lastDone when)), true, true⟩

/-- The `ErrCount` update in `processOnce`: a non-nil, non-cancellation
result increments the count, anything else resets it to zero. -/
def processOnceErrCount (errCount : Nat) (result : Option GoErr) : Nat :=
  match result with
  | some e => if e = .canceled then 0 else errCount + 1
  | none => 0

/-- The sleep selected by `processOnce`: the error-sleep policy applied to
the incremented count on a non-nil, non-cancellation result, the success
sleep otherwise. -/
def processOnceSleep (o : ScheduleOpts) (errCount : Nat) (result : Option GoErr) : GoDuration :=
  match result with
  | some e => if e = .canceled then o.sleep else o.errorSleep (errCount + 1) e
  | none => o.sleep

/-- C6: in a `doNext` iteration run while the consecutive-error count is
below the configured threshold (or no threshold is set), the cursor `Set`
is invoked exactly when the scheduled function returns nil, and then with
the due instant's Unix seconds; on a cursor read error, a cancelled wait,
or a scheduled-function error, the iteration returns that error and the
cursor is left unchanged, so the same due instant recurs next iteration. -/
theorem doNext_cursor_written_iff_success
    (o : ScheduleOpts) (when : Schedule) (errCount : Nat) (env : DoNextEnv)
    (hth : o.maxErrors = 0 ∨ errCount < o.maxErrors) :
    (∀ e, getLastRun env.getResult = .error e →
      doNext o when errCount env = ⟨some e, none, false, false⟩) ∧
    (∀ last, getLastRun env.getResult = .ok last → ∀ e, env.waitErr = some e →
      doNext o when errCount env = ⟨some e, none, false, true⟩) ∧
    (∀ last, getLastRun env.getResult = .ok last → env.waitErr = none →
      ∀ e, env.fErr = some e →
        doNext o when errCount env = ⟨some e, none, true, true⟩) ∧
    (∀ last, getLastRun env.getResult = .ok last → env.waitErr = none → env.fErr = none →
      doNext o when errCount env =
        ⟨env.setErr, some (setRunDoneValue (nextExecution env.now last when)), true, true⟩) := by
  have hmax : ¬ (o.maxErrors > 0 ∧ errCount ≥ o.maxErrors) := by omega
  refine ⟨?_, ?_, ?_, ?_⟩
  · intro e hget
    simp [doNext, hget]
  · intro last hget e hwait
    simp [doNext, hget, hmax, hwait]
  · intro last hget hwait e hf
    simp [doNext, hget, hmax, hwait, hf]
  · intro last hget hwait hf
    simp [doNext, hget, hmax, hwait, hf]

theorem doNext_cursor_written_iff_success_witness :
    ((⟨0, 0, fun _ _ => 0⟩ : ScheduleOpts).maxErrors = 0 ∨ (0 : Nat) < 0) ∧
    (getLastRun (.ok "") = Except.ok 0 → (none : Option GoErr) = none →
        (none : Option GoErr) = none →
      doNext ⟨0, 0, fun _ _ => 0⟩ (Every Hour 0) 0 ⟨.ok "", t13_24_01, none, none, none⟩ =
        ⟨none, some (setRunDoneValue (nextExecution t13_24_01 0 (Every Hour 0))), true, true⟩) :=
  ⟨Or.inl rfl,
    fun hget hw hf =>
      (doNext_cursor_written_iff_success ⟨0, 0, fun _ _ => 0⟩ (Every Hour 0) 0
        ⟨.ok "", t13_24_01, none, none, none⟩ (Or.inl rfl)).2.2.2 0 hget hw hf⟩

/-- C7: when a nonzero max-error threshold is configured and the
consecutive-error count has reached it, `doNext` persists the computed due
instant as done without waiting for the due instant and without invoking
the scheduled function; and `processOnce`'s counter update increments on
every non-cancellation failure, and resets to zero on every success. -/
theorem doNext_gives_up_at_max_errors
    (o : ScheduleOpts) (when : Schedule) (errCount : Nat) (env : DoNextEnv) (last : GoTime)
    (h1 : o.maxErrors > 0) (h2 : errCount ≥ o.maxErrors)
    (hget : getLastRun env.getResult = .ok last) :
    doNext o when errCount env =
      ⟨env.setErr, some (setRunDoneValue (nextExecution env.now last when)), false, false⟩ ∧
    (∀ ec, processOnceErrCount ec none = 0) ∧
    (∀ ec e, e ≠ GoErr.canceled → processOnceErrCount ec (some e) = ec + 1) := by
  refine ⟨?_, fun ec => rfl, fun ec e he => by simp [processOnceErrCount, he]⟩
  simp [doNext, hget, h1, h2]

theorem doNext_gives_up_at_max_errors_witness :
    ((⟨2, 0, fun _ _ => 0⟩ : ScheduleOpts).maxErrors > 0 ∧ (2 : Nat) ≥ 2 ∧
      getLastRun (.ok "") = Except.ok 0) ∧
    doNext ⟨2, 0, fun _ _ => 0⟩ (Every Hour 0) 2 ⟨.ok "", t13_24_01, none, none, none⟩ =
      ⟨none, some (setRunDoneValue (nextExecution t13_24_01 0 (Every Hour 0))), false, false⟩ :=
  ⟨⟨by decide, by decide, rfl⟩,
    (doNext_gives_up_at_max_errors ⟨2, 0, fun _ _ => 0⟩ (Every Hour 0) 2
      ⟨.ok "", t13_24_01, none, none, none⟩ 0 (by decide) (by decide) rfl).1⟩

end Lu

namespace Lu

/-! ### cronWithPrevious.Previous (src/process/schedule.go)

`Previous` is written against an arbitrary `cron.Schedule`, so it is
embedded parametrically in the `Next` function.  Its two loops have no
structural termination measure in general (the second one terminates only
for schedules whose `Next` makes progress), so both carry an explicit fuel:
the lookback loop's fuel of 64 is unreachable — the lookback starts at ten
minutes and doubles, so it exceeds the 1000-day cap within 19 iterations
and the loop takes the cap branch first — and exhaustion is mapped to the
same `now` fallback as the cap; the forward scan's fuel bounds the number
of firings inside the final lookback bracket and exhaustion returns the
current candidate. -/

def maxLookBack : GoDuration := 1000 * 24 * Hour

/-- The first loop of `cronWithPrevious.Previous`: starting from `prev =
next` and `lookBack = 10min`, double the lookback until `Next` of the
stepped-back instant is no longer `next`; `none` means the 1000-day cap was
exceeded (`Previous` then returns `now`). -/
def lookbackSearch (nextF : GoTime → GoTime) (next : GoTime) :
    Nat → GoDuration → Option GoTime
  | 0, _ => none
  | fuel + 1, lookBack =>
    if lookBack > maxLookBack then none
    else
      if nextF (next - lookBack) = next then
        lookbackSearch nextF next fuel (lookBack * 2)
      else some (nextF (next - lookBack))

/-- The second loop of `cronWithPrevious.Previous`:
`t := prev; for !t.Equal(next) { prev, t = t, c.Next(prev) }; return prev`. -/
def scanForward (nextF : GoTime → GoTime) (next : GoTime) :
    Nat → GoTime → GoTime → GoTime
  | 0, prev, _ => prev
  | fuel + 1, prev, t =>
    if t = next then prev else scanForward nextF next fuel t (nextF prev)

/-- Go `cronWithPrevious.Previous(now)`. -/
def cronPrevious (nextF : GoTime → GoTime) (now : GoTime) : GoTime :=
  match lookbackSearch nextF (nextF now) 64 (10 * Minute) with
  | none => now
  | some prev => scanForward nextF (nextF now) 4096 prev prev

/-- Modelled from the robfig cron library used by `ParseCron`: `Next` for
the standard cron expression `"0 9 * * *"` evaluated in UTC is the earliest
instant strictly after `t` whose wall clock reads 09:00:00. -/
def cronDaily9Next (t : GoTime) : GoTime :=
  if startOfDay t + 9 * Hour > t then startOfDay t + 9 * Hour
  else startOfDay t + 9 * Hour + Day

/-! Instants for the spec's cron example (UTC, Unix seconds:
`2024-10-03T00:00:00Z` is Unix `1727913600`). -/

def t2024_10_03T08 : GoTime := utc 1727942400

def t2024_10_03T09 : GoTime := utc 1727946000

def t2024_10_02T09 : GoTime := utc 1727859600

/-- C5: `Previous` for a parsed cron schedule searches backwards by
doubling a 10-minute window, capped at 1000 days — if `Next` never changes
(modelled by a constant `Next`, i.e. a schedule whose previous firing is
out of reach), the lookback exceeds the cap and `Previous` falls back to
returning `now` itself; and for cron `"0 9 * * *"` at
`now = 2024-10-03T08:00:00Z`, `Previous(now) = 2024-10-02T09:00:00Z` and
`Next(now) = 2024-10-03T09:00:00Z`. -/
theorem cronPrevious_lookback_spec
    (nextF : GoTime → GoTime) (now c : GoTime) (hconst : ∀ s, nextF s = c) :
    cronPrevious nextF now = now ∧
    cronPrevious cronDaily9Next t2024_10_03T08 = t2024_10_02T09 ∧
    cronDaily9Next t2024_10_03T08 = t2024_10_03T09 := by
  refine ⟨?_, by decide, by decide⟩
  have hsearch : ∀ fuel lookBack,
      lookbackSearch nextF (nextF now) fuel lookBack = none := by
    intro fuel
    induction fuel with
    | zero => intro lookBack; rfl
    | succ n ih =>
      intro lookBack
      rw [lookbackSearch]
      split
      · rfl
      · rw [if_pos (by rw [hconst, hconst]), ih]
  rw [cronPrevious, hsearch]

theorem cronPrevious_lookback_spec_witness :
    (∀ s : GoTime, (fun _ : GoTime => (0 : GoTime)) s = 0) ∧
    cronPrevious (fun _ : GoTime => (0 : GoTime)) t2024_10_03T08 = t2024_10_03T08 :=
  ⟨fun s => rfl,
    (cronPrevious_lookback_spec (fun _ : GoTime => (0 : GoTime)) t2024_10_03T08 0
      (fun s => rfl)).1⟩

end Lu

namespace Lu

/-! ### Hooks (hooks.go and App.OnStartUp / App.OnShutdown)

A `hook` carries a name, a creation order, a priority (`HookPriority` is an
`int`) and a function; the function payload is an opaque type parameter.
`OnStartUp` and `OnShutdown` append a hook whose `createOrder` is the
current list length, apply the options, and re-sort; both use the same
`sortHooks`, so one registration model covers both.  Go's `sort.Slice` is
not stable, but its comparator — priority first, then creation order — is a
strict total order on any list with pairwise-distinct creation orders
(which the registration discipline guarantees), so the sorted result is
unique and `sortHooks` is modelled by insertion sort with the reflexive
closure of that comparator. -/

structure Hook (α : Type) where
  Name : String
  createOrder : Nat
  Priority : Int
  F : α

/-- Options `WithHookName` and `WithHookPriority`.  `WithHookPriority` panics at
option-construction time for priorities outside `[-100, 100]`, so only
in-range priorities ever reach a hook; the bound is irrelevant to the
ordering and is not imposed here. -/
inductive HookOption
  | withHookName (s : String)
  | withHookPriority (p : Int)

def applyHookOption {α : Type} (h : Hook α) : HookOption → Hook α
  | .withHookName s => { h with Name := s }
  | .withHookPriority p => { h with Priority := p }

/-- The comparator of `sortHooks` (`sort.Slice`'s `less`), made reflexive
for the insertion-sort model:
`if hi.Priority != hj.Priority { return hi.Priority < hj.Priority };
return hi.createOrder < hj.createOrder`. -/
def hookLE {α : Type} (a b : Hook α) : Prop :=
  a.Priority < b.Priority ∨ (a.Priority = b.Priority ∧ a.createOrder ≤ b.createOrder)

/-- The strict version: `a` must run before `b`. -/
def hookLT {α : Type} (a b : Hook α) : Prop :=
  a.Priority < b.Priority ∨ (a.Priority = b.Priority ∧ a.createOrder < b.createOrder)

instance {α : Type} : DecidableRel (@hookLE α) := fun a b =>
  decidable_of_iff
    (a.Priority < b.Priority ∨ (a.Priority = b.Priority ∧ a.createOrder ≤ b.createOrder))
    Iff.rfl

instance {α : Type} : IsTotal (Hook α) hookLE :=
  ⟨fun a b => by
    unfold hookLE
    omega⟩

instance {α : Type} : IsTrans (Hook α) hookLE :=
  ⟨fun a b c hab hbc => by
    unfold hookLE at *
    omega⟩

/-- Go `sortHooks`. -/
def sortHooks {α : Type} (l : List (Hook α)) : List (Hook α) :=
  l.insertionSort hookLE

/-- The hook built by `OnStartUp`/`OnShutdown` before sorting:
`h := hook{F: f, createOrder: len(hooks)}; applyHookOptions(&h, opts)`. -/
def mkHook {α : Type} (createOrder : Nat) (f : α) (opts : List HookOption) : Hook α :=
  opts.foldl applyHookOption ⟨"", createOrder, 0, f⟩

/-- One `OnStartUp` (or `OnShutdown`) registration. -/
def onStartUp {α : Type} (hooks : List (Hook α)) (f : α) (opts : List HookOption) :
    List (Hook α) :=
  sortHooks (hooks ++ [mkHook hooks.length f opts])

/-- A whole sequence of registrations starting from the empty app. -/
def registerAll {α : Type} (inputs : List (α × List HookOption)) : List (Hook α) :=
  inputs.foldl (fun hooks i => onStartUp hooks i.1 i.2) []

/-- The registration-indexed reference list: the `k`-th input becomes a
hook with `createOrder = n + k`, unsorted. -/
def mkHooksAt {α : Type} : Nat → List (α × List HookOption) → List (Hook α)
  | _, [] => []
  | n, x :: xs => mkHook n x.1 x.2 :: mkHooksAt (n + 1) xs

theorem createOrder_foldl_applyHookOption {α : Type} (opts : List HookOption) :
    ∀ h : Hook α, (opts.foldl applyHookOption h).createOrder = h.createOrder := by
  induction opts with
  | nil => intro h; rfl
  | cons o os ih =>
    intro h
    rw [List.foldl_cons, ih]
    cases o <;> rfl

theorem createOrder_mkHook {α : Type} (n : Nat) (f : α) (opts : List HookOption) :
    (mkHook n f opts).createOrder = n :=
  createOrder_foldl_applyHookOption opts _

theorem map_createOrder_mkHooksAt {α : Type} (inputs : List (α × List HookOption)) :
    ∀ n, (mkHooksAt n inputs : List (Hook α)).map Hook.createOrder =
      List.range' n inputs.length := by
  induction inputs with
  | nil => intro n; rfl
  | cons x xs ih =>
    intro n
    rw [mkHooksAt, List.map_cons, createOrder_mkHook, List.length_cons, List.range'_succ, ih]

theorem registerAll_loop_perm {α : Type} (inputs : List (α × List HookOption)) :
    ∀ hooks : List (Hook α),
      List.Perm (List.foldl (fun hs i => onStartUp hs i.1 i.2) hooks inputs)
        (hooks ++ mkHooksAt hooks.length inputs) := by
  induction inputs with
  | nil =>
    intro hooks
    simp [mkHooksAt]
  | cons x xs ih =>
    intro hooks
    rw [List.foldl_cons]
    have h1 : List.Perm (onStartUp hooks x.1 x.2) (hooks ++ [mkHook hooks.length x.1 x.2]) :=
      List.perm_insertionSort hookLE _
    have hlen : (onStartUp hooks x.1 x.2).length = hooks.length + 1 := by
      rw [h1.length_eq]
      simp
    have h2 := ih (onStartUp hooks x.1 x.2)
    rw [hlen] at h2
    refine h2.trans ?_
    have h3 := h1.append_right (mkHooksAt (hooks.length + 1) xs)
    refine h3.trans ?_
    rw [mkHooksAt, List.append_assoc]
    rfl

theorem registerAll_perm {α : Type} (inputs : List (α × List HookOption)) :
    List.Perm (registerAll inputs) (mkHooksAt 0 inputs) := by
  simpa using registerAll_loop_perm inputs []

theorem registerAll_sorted {α : Type} (inputs : List (α × List HookOption)) :
    List.Pairwise hookLE (registerAll inputs) := by
  induction inputs using List.reverseRecOn with
  | nil => exact List.Pairwise.nil
  | append_singleton ys y ih =>
    have : registerAll (ys ++ [y]) = onStartUp (registerAll ys) y.1 y.2 := by
      unfold registerAll
      rw [List.foldl_append, List.foldl_cons, List.foldl_nil]
    rw [this]
    exact List.sorted_insertionSort hookLE _

/-- C8: after any sequence of `OnStartUp` (resp. `OnShutdown`)
registrations, the hook list is strictly sorted by (priority,
creation-order) — so a lower-priority hook precedes a higher-priority one
regardless of registration order, and equal-priority hooks stay in
registration order — and it is a permutation of the registration-indexed
inputs (the `k`-th registered hook carries `createOrder = k`). -/
theorem hooks_sorted_by_priority_then_creation {α : Type}
    (inputs : List (α × List HookOption)) :
    List.Pairwise hookLT (registerAll inputs) ∧
    List.Perm (registerAll inputs) (mkHooksAt 0 inputs) := by
  have hperm := registerAll_perm inputs
  refine ⟨?_, hperm⟩
  have hnodup : (registerAll inputs).Pairwise
      (fun a b : Hook α => a.createOrder ≠ b.createOrder) := by
    have h1 : ((mkHooksAt 0 inputs : List (Hook α)).map Hook.createOrder).Nodup := by
      rw [map_createOrder_mkHooksAt inputs 0]
      exact List.nodup_range' 0 inputs.length
    have h2 : ((registerAll inputs).map Hook.createOrder).Nodup :=
      ((hperm.map Hook.createOrder).nodup_iff).mpr h1
    exact (List.pairwise_map.mp h2)
  have hle := registerAll_sorted inputs
  exact (hle.and hnodup).imp fun hab => by
    unfold hookLE hookLT at *
    omega

end Lu
